import Mathlib

/-!
Verification development for PiSiteManager (`manager.py`).

Text is modelled at the byte / code-point level: a Python `bytes` value is a
`List Nat` of bytes, a Python `str` is a `List Nat` of Unicode code points.
Strings produced by the program (log lines, SSE payloads) are byte lists;
messages returned by process-control functions are modelled as inductives.
-/

namespace PiSiteManager

/-- Unicode line terminators recognised by Python `str.splitlines`
(for code points; the ones below 128 are the ones reachable from decoded
ASCII bytes). -/
def lineTerm (c : Nat) : Bool :=
  c = 10 || c = 11 || c = 12 || c = 13 || c = 28 || c = 29 || c = 30 ||
  c = 133 || c = 8232 || c = 8233

/-- Worker for `pySplitlines`: `acc` is the reversed current line. -/
def slGo : List Nat → List Nat → List (List Nat)
  | [], acc => if acc = [] then [] else [acc.reverse]
  | c :: rest, acc =>
    if lineTerm c then
      if c = 13 then
        match rest with
        | 10 :: rest2 => acc.reverse :: slGo rest2 []
        | rest2 => acc.reverse :: slGo rest2 []
      else acc.reverse :: slGo rest []
    else slGo rest (c :: acc)

/-- Python `str.splitlines` on a list of code points. -/
def pySplitlines (s : List Nat) : List (List Nat) := slGo s []

/-- One step of the UTF-8 decoder with `errors="ignore"` (CPython semantics):
given the first byte `b` and the remaining input `tl`, return the code points
emitted for the sequence starting at `b` (empty when the sequence is invalid
or truncated: the offending bytes are dropped) and the input that remains.
At least the byte `b` is always consumed. -/
def utf8StepIgnore (b : Nat) (tl : List Nat) : List Nat × List Nat :=
  if b < 128 then ([b], tl)
  else if b < 194 then ([], tl)
  else if b < 224 then
    match tl with
    | [] => ([], [])
    | b2 :: tl2 =>
      if 128 ≤ b2 ∧ b2 < 192 then ([(b - 192) * 64 + (b2 - 128)], tl2)
      else ([], tl)
  else if b < 240 then
    match tl with
    | [] => ([], [])
    | b2 :: tl2 =>
      if (if b = 224 then 160 ≤ b2 ∧ b2 < 192
          else if b = 237 then 128 ≤ b2 ∧ b2 < 160
          else 128 ≤ b2 ∧ b2 < 192) then
        match tl2 with
        | [] => ([], [])
        | b3 :: tl3 =>
          if 128 ≤ b3 ∧ b3 < 192 then
            ([(b - 224) * 4096 + (b2 - 128) * 64 + (b3 - 128)], tl3)
          else ([], tl2)
      else ([], tl)
  else if b < 245 then
    match tl with
    | [] => ([], [])
    | b2 :: tl2 =>
      if (if b = 240 then 144 ≤ b2 ∧ b2 < 192
          else if b = 244 then 128 ≤ b2 ∧ b2 < 144
          else 128 ≤ b2 ∧ b2 < 192) then
        match tl2 with
        | [] => ([], [])
        | b3 :: tl3 =>
          if 128 ≤ b3 ∧ b3 < 192 then
            match tl3 with
            | [] => ([], [])
            | b4 :: tl4 =>
              if 128 ≤ b4 ∧ b4 < 192 then
                ([(b - 240) * 262144 + (b2 - 128) * 4096 + (b3 - 128) * 64 + (b4 - 128)], tl4)
              else ([], tl3)
          else ([], tl2)
      else ([], tl)
  else ([], tl)

/-- Decoder loop: `fuel` bounds the number of steps; each step consumes at
least one byte, so `fuel = l.length` always suffices. -/
def decodeIgnoreF : Nat → List Nat → List Nat
  | 0, _ => []
  | _ + 1, [] => []
  | fuel + 1, b :: tl =>
    (utf8StepIgnore b tl).1 ++ decodeIgnoreF fuel (utf8StepIgnore b tl).2

/-- Python `bytes.decode("utf-8", "ignore")`: UTF-8 decoding where invalid
byte sequences are silently dropped (as used by `tail_file` and `sse_tail`
in `manager.py`). -/
def decodeUtf8Ignore (l : List Nat) : List Nat := decodeIgnoreF l.length l

/-- Modelled from the spec: one step of `bytes.decode("utf-8", "replace")` —
the decoding the spec claims the tailer uses, in which each invalid or
truncated byte sequence yields the substitution marker U+FFFD (65533)
instead of being dropped.  The consumed portion of the input is the same as
for `utf8StepIgnore`; only the emitted code points differ. -/
def utf8StepReplace (b : Nat) (tl : List Nat) : List Nat × List Nat :=
  match utf8StepIgnore b tl with
  | ([], rest) => ([65533], rest)
  | (out, rest) => (out, rest)

/-- Modelled from the spec: `bytes.decode("utf-8", "replace")` decoder loop. -/
def decodeReplaceF : Nat → List Nat → List Nat
  | 0, _ => []
  | _ + 1, [] => []
  | fuel + 1, b :: tl =>
    (utf8StepReplace b tl).1 ++ decodeReplaceF fuel (utf8StepReplace b tl).2

/-- Modelled from the spec: full `bytes.decode("utf-8", "replace")`. -/
def decodeUtf8ReplaceSpec (l : List Nat) : List Nat := decodeReplaceF l.length l

/-- Python `text[-n:]` for `n ≥ 0`: for `n = 0` the slice `[-0:]` is the
whole list, otherwise the last `min n (length)` elements. -/
def pyTakeLast (n : Nat) (xs : List (List Nat)) : List (List Nat) :=
  if n = 0 then xs else xs.drop (xs.length - n)

/-- Python `data.count(b"\n")`: number of newline (10) bytes. -/
def countNl : List Nat → Nat
  | [] => 0
  | b :: tl => (if b = 10 then 1 else 0) + countNl tl

/-- The backward block-reading loop of `tail_file` (`manager.py` lines
201-210): starting from `size = content.length`, while `size > 0` and the
suffix read so far has at most `n + 1` newlines, step back by
`min 4096 size` bytes.  The data read when the offset is `size` is exactly
`content.drop size`.  `fuel` bounds the iteration count; `fuel = size`
always suffices because `size` strictly decreases. -/
def tailAcquire (n : Nat) (content : List Nat) : Nat → Nat → Nat
  | 0, size => size
  | fuel + 1, size =>
    if 0 < size ∧ countNl (content.drop size) ≤ n + 1 then
      tailAcquire n content fuel (size - min 4096 size)
    else size

/-- `tail_file` from `manager.py` (lines 197-214): `none` models a missing
file; otherwise read backward in 4096-byte blocks until more than `n + 1`
newlines are seen or the file start is reached, decode with
`errors="ignore"`, split into lines, and take the Python slice `[-n:]`. -/
def tail_file (n : Nat) (file : Option (List Nat)) : List (List Nat) :=
  match file with
  | none => []
  | some content =>
    let sz := tailAcquire n content content.length content.length
    pyTakeLast n (pySplitlines (decodeUtf8Ignore (content.drop sz)))

/-- A log consisting of the lines `L`, each terminated by a newline byte. -/
def joinLines (L : List (List Nat)) : List Nat :=
  (L.map (fun l => l ++ [10])).flatten

/-- A plain log line: ASCII bytes that are not line terminators. -/
abbrev GoodLine (l : List Nat) : Prop := ∀ b ∈ l, b < 128 ∧ lineTerm b = false

/-- `s` is a suffix of `t`. -/
def SufOf (s t : List Nat) : Prop := ∃ u, u ++ s = t

theorem lineTerm_ten : lineTerm 10 = true := by decide

theorem slGo_cons_noTerm (c : Nat) (hc : lineTerm c = false) (rest acc : List Nat) :
    slGo (c :: rest) acc = slGo rest (c :: acc) := by
  rw [slGo.eq_def]
  simp [hc]

theorem slGo_newline (rest acc : List Nat) :
    slGo (10 :: rest) acc = acc.reverse :: slGo rest [] := by
  rw [slGo.eq_def]
  simp [lineTerm]

theorem slGo_append_noTerm (t : List Nat) (ht : ∀ b ∈ t, lineTerm b = false) :
    ∀ rest acc, slGo (t ++ rest) acc = slGo rest (t.reverse ++ acc) := by
  induction t with
  | nil => intro rest acc; simp
  | cons c t2 ih =>
    intro rest acc
    have hc : lineTerm c = false := ht c (List.mem_cons_self c t2)
    have ht2 : ∀ b ∈ t2, lineTerm b = false := fun b hb => ht b (List.mem_cons_of_mem c hb)
    rw [List.cons_append, slGo_cons_noTerm c hc, ih ht2 rest (c :: acc)]
    simp [List.append_assoc]

theorem slGo_flatten (L : List (List Nat)) (hL : ∀ l ∈ L, ∀ b ∈ l, lineTerm b = false) :
    ∀ r, slGo (joinLines L ++ r) [] = L ++ slGo r [] := by
  induction L with
  | nil => intro r; simp [joinLines]
  | cons l0 L2 ih =>
    intro r
    have h0 : ∀ b ∈ l0, lineTerm b = false := hL l0 (List.mem_cons_self l0 L2)
    have hL2 : ∀ l ∈ L2, ∀ b ∈ l, lineTerm b = false :=
      fun l hl => hL l (List.mem_cons_of_mem l0 hl)
    have hj : joinLines (l0 :: L2) ++ r = l0 ++ (10 :: (joinLines L2 ++ r)) := by
      simp [joinLines, List.append_assoc]
    rw [hj, slGo_append_noTerm l0 h0, slGo_newline]
    simp [ih hL2 r]

theorem slGo_noTerm (r : List Nat) (hr : ∀ b ∈ r, lineTerm b = false) :
    slGo r [] = if r = [] then [] else [r] := by
  have h1 : slGo (r ++ []) [] = slGo [] (r.reverse ++ []) := slGo_append_noTerm r hr [] []
  simp only [List.append_nil] at h1
  rw [h1]
  by_cases h : r = []
  · subst h; simp [slGo]
  · have hrev : r.reverse ≠ [] := fun hc => h (by simpa using congrArg List.reverse hc)
    simp [slGo, hrev, h]

theorem pySplitlines_flatten (L : List (List Nat)) (r : List Nat)
    (hL : ∀ l ∈ L, ∀ b ∈ l, lineTerm b = false) (hr : ∀ b ∈ r, lineTerm b = false) :
    pySplitlines (joinLines L ++ r) = L ++ if r = [] then [] else [r] := by
  unfold pySplitlines
  rw [slGo_flatten L hL r, slGo_noTerm r hr]

theorem utf8StepIgnore_ascii (b : Nat) (hb : b < 128) (tl : List Nat) :
    utf8StepIgnore b tl = ([b], tl) := by
  simp [utf8StepIgnore, hb]

theorem utf8StepIgnore_rest_le (b : Nat) (tl : List Nat) :
    (utf8StepIgnore b tl).2.length ≤ tl.length := by
  unfold utf8StepIgnore
  repeat' split
  all_goals simp_all
  all_goals omega

theorem decodeIgnoreF_congr : ∀ f1 f2 l, l.length ≤ f1 → l.length ≤ f2 →
    decodeIgnoreF f1 l = decodeIgnoreF f2 l := by
  intro f1
  induction f1 with
  | zero =>
    intro f2 l h1 _
    have hl : l = [] := List.length_eq_zero.mp (Nat.le_zero.mp h1)
    subst hl
    cases f2 <;> rfl
  | succ f ih =>
    intro f2 l h1 h2
    cases l with
    | nil => cases f2 <;> rfl
    | cons b tl =>
      cases f2 with
      | zero => simp at h2
      | succ g =>
        simp only [decodeIgnoreF]
        have hr := utf8StepIgnore_rest_le b tl
        have hf : tl.length ≤ f := by simpa using h1
        have hg : tl.length ≤ g := by simpa using h2
        rw [ih g (utf8StepIgnore b tl).2 (le_trans hr hf) (le_trans hr hg)]

theorem decode_nil : decodeUtf8Ignore [] = [] := rfl

theorem decode_cons_ascii (b : Nat) (hb : b < 128) (tl : List Nat) :
    decodeUtf8Ignore (b :: tl) = b :: decodeUtf8Ignore tl := by
  unfold decodeUtf8Ignore
  simp only [List.length_cons, decodeIgnoreF, utf8StepIgnore_ascii b hb]
  simp

theorem decode_ascii_append (a : List Nat) (ha : ∀ x ∈ a, x < 128) :
    ∀ rest, decodeUtf8Ignore (a ++ rest) = a ++ decodeUtf8Ignore rest := by
  induction a with
  | nil => intro rest; simp
  | cons x a2 ih =>
    intro rest
    have hx : x < 128 := ha x (List.mem_cons_self x a2)
    have ha2 : ∀ y ∈ a2, y < 128 := fun y hy => ha y (List.mem_cons_of_mem x hy)
    rw [List.cons_append, decode_cons_ascii x hx, ih ha2 rest, List.cons_append]

theorem decode_ascii (a : List Nat) (ha : ∀ x ∈ a, x < 128) :
    decodeUtf8Ignore a = a := by
  have h := decode_ascii_append a ha []
  simpa [decode_nil] using h

theorem countNl_append (a b : List Nat) : countNl (a ++ b) = countNl a + countNl b := by
  induction a with
  | nil => simp [countNl]
  | cons x a2 ih => simp [countNl, ih]; omega

theorem countNl_eq_zero (a : List Nat) (ha : ∀ b ∈ a, b ≠ 10) : countNl a = 0 := by
  induction a with
  | nil => simp [countNl]
  | cons x a2 ih =>
    have hx : x ≠ 10 := ha x (List.mem_cons_self x a2)
    simp [countNl, hx, ih (fun b hb => ha b (List.mem_cons_of_mem x hb))]

theorem noTerm_no_nl (a : List Nat) (ha : ∀ b ∈ a, lineTerm b = false) :
    ∀ b ∈ a, b ≠ 10 := by
  intro b hb he
  have h := ha b hb
  rw [he, lineTerm_ten] at h
  exact absurd h (by decide)

theorem countNl_joinLines (L : List (List Nat))
    (hL : ∀ l ∈ L, ∀ b ∈ l, lineTerm b = false) :
    countNl (joinLines L) = L.length := by
  induction L with
  | nil => simp [joinLines, countNl]
  | cons l0 L2 ih =>
    have h0 : ∀ b ∈ l0, lineTerm b = false := hL l0 (List.mem_cons_self l0 L2)
    have hL2 : ∀ l ∈ L2, ∀ b ∈ l, lineTerm b = false :=
      fun l hl => hL l (List.mem_cons_of_mem l0 hl)
    have hj : joinLines (l0 :: L2) = l0 ++ ([10] ++ joinLines L2) := by
      simp [joinLines, List.append_assoc]
    rw [hj, countNl_append, countNl_append, countNl_eq_zero l0 (noTerm_no_nl l0 h0), ih hL2]
    simp [countNl]
    omega

theorem suf_append (a b s : List Nat) (h : SufOf s (a ++ b)) :
    SufOf s b ∨ ∃ t, SufOf t a ∧ s = t ++ b := by
  obtain ⟨u, hu⟩ := h
  induction u generalizing a s with
  | nil => exact Or.inr ⟨a, ⟨[], rfl⟩, by simpa using hu⟩
  | cons x u2 ih =>
    cases a with
    | nil => exact Or.inl ⟨x :: u2, by simpa using hu⟩
    | cons y a2 =>
      rw [List.cons_append, List.cons_append] at hu
      injection hu with hxy hu2
      rcases ih a2 s hu2 with h1 | ⟨t, ⟨w, hw⟩, hs⟩
      · exact Or.inl h1
      · exact Or.inr ⟨t, ⟨y :: w, by rw [List.cons_append, hw]⟩, hs⟩

theorem suffix_shape (L : List (List Nat)) (r : List Nat) :
    ∀ s, SufOf s (joinLines L ++ r) →
      SufOf s r ∨
      ∃ A lj B t, L = A ++ lj :: B ∧ SufOf t lj ∧ s = t ++ 10 :: (joinLines B ++ r) := by
  induction L with
  | nil => intro s h; left; simpa [joinLines] using h
  | cons l0 L2 ih =>
    intro s h
    have h0 : SufOf s (l0 ++ (10 :: (joinLines L2 ++ r))) := by
      have hj : joinLines (l0 :: L2) ++ r = l0 ++ (10 :: (joinLines L2 ++ r)) := by
        simp [joinLines, List.append_assoc]
      rwa [hj] at h
    rcases suf_append l0 (10 :: (joinLines L2 ++ r)) s h0 with h1 | ⟨t, ht, hs⟩
    · -- s is a suffix of 10 :: (joinLines L2 ++ r)
      obtain ⟨u, hu⟩ := h1
      cases u with
      | nil =>
        right
        exact ⟨[], l0, L2, [], rfl, ⟨l0, List.append_nil l0⟩, by simpa using hu⟩
      | cons x u2 =>
        rw [List.cons_append] at hu
        injection hu with hx hu2
        rcases ih s ⟨u2, hu2⟩ with ha | ⟨A, lj, B, t, hLA, htl, hs⟩
        · exact Or.inl ha
        · exact Or.inr ⟨l0 :: A, lj, B, t, by simp [hLA], htl, hs⟩
    · -- s = t ++ 10 :: (joinLines L2 ++ r) with t a suffix of l0
      exact Or.inr ⟨[], l0, L2, t, rfl, ht, hs⟩

theorem tail_file_some (n : Nat) (content : List Nat) :
    tail_file n (some content) =
      pyTakeLast n (pySplitlines (decodeUtf8Ignore
        (content.drop (tailAcquire n content content.length content.length)))) := rfl

theorem tailAcquire_exit (n : Nat) (content : List Nat) :
    ∀ fuel size, size ≤ fuel →
      tailAcquire n content fuel size = 0 ∨
      n + 2 ≤ countNl (content.drop (tailAcquire n content fuel size)) := by
  intro fuel
  induction fuel with
  | zero =>
    intro size hs
    have h0 : size = 0 := Nat.le_zero.mp hs
    subst h0
    left; rfl
  | succ f ih =>
    intro size hs
    by_cases hc : 0 < size ∧ countNl (content.drop size) ≤ n + 1
    · have hred : tailAcquire n content (f + 1) size =
          tailAcquire n content f (size - min 4096 size) := by
        simp only [tailAcquire]
        rw [if_pos hc]
      rw [hred]
      exact ih (size - min 4096 size) (by omega)
    · have hred : tailAcquire n content (f + 1) size = size := by
        simp only [tailAcquire]
        rw [if_neg hc]
      rw [hred]
      rcases Nat.eq_zero_or_pos size with h0 | hpos
      · left; exact h0
      · right
        rcases Decidable.not_and_iff_or_not.mp hc with h | h
        · omega
        · omega

theorem joinLines_ascii (L : List (List Nat)) (hL : ∀ l ∈ L, GoodLine l) :
    ∀ b ∈ joinLines L, b < 128 := by
  intro b hb
  unfold joinLines at hb
  rcases List.mem_flatten.mp hb with ⟨piece, hp, hbp⟩
  rcases List.mem_map.mp hp with ⟨l, hl, rfl⟩
  rcases List.mem_append.mp hbp with h | h
  · exact (hL l hl b h).1
  · have : b = 10 := List.mem_singleton.mp h
    subst this; decide

theorem tail_drop_correct (L : List (List Nat)) (r : List Nat) (n : Nat)
    (hL : ∀ l ∈ L, GoodLine l) (hr : GoodLine r) (hn : 1 ≤ n) (sz : Nat)
    (hexit : sz = 0 ∨ n + 2 ≤ countNl ((joinLines L ++ r).drop sz)) :
    pyTakeLast n (pySplitlines (decodeUtf8Ignore ((joinLines L ++ r).drop sz))) =
      (L ++ if r = [] then [] else [r]).drop
        ((L ++ if r = [] then [] else [r]).length - n) := by
  have hLt : ∀ l ∈ L, ∀ b ∈ l, lineTerm b = false := fun l hl b hb => (hL l hl b hb).2
  have hrt : ∀ b ∈ r, lineTerm b = false := fun b hb => (hr b hb).2
  have hascii : ∀ b ∈ joinLines L ++ r, b < 128 := by
    intro b hb
    rcases List.mem_append.mp hb with h | h
    · exact joinLines_ascii L hL b h
    · exact (hr b h).1
  have hdecode : decodeUtf8Ignore ((joinLines L ++ r).drop sz) = (joinLines L ++ r).drop sz :=
    decode_ascii _ (fun b hb => hascii b (List.drop_subset _ _ hb))
  rw [hdecode]
  rcases hexit with hz | hcnt
  · subst hz
    rw [List.drop_zero, pySplitlines_flatten L r hLt hrt]
    unfold pyTakeLast
    rw [if_neg (by omega : ¬ n = 0)]
  · have hsuf : SufOf ((joinLines L ++ r).drop sz) (joinLines L ++ r) :=
      ⟨(joinLines L ++ r).take sz, List.take_append_drop sz (joinLines L ++ r)⟩
    rcases suffix_shape L r _ hsuf with ⟨u, hu⟩ | ⟨A, lj, B, t, hLA, ⟨w, hw⟩, hs⟩
    · exfalso
      have hmem : ∀ b ∈ (joinLines L ++ r).drop sz, b ∈ r := by
        intro b hb
        rw [← hu]
        exact List.mem_append_right u hb
      have h0 : countNl ((joinLines L ++ r).drop sz) = 0 :=
        countNl_eq_zero _ (fun b hb => noTerm_no_nl r hrt b (hmem b hb))
      omega
    · have hlj : GoodLine lj :=
        hL lj (by rw [hLA]; exact List.mem_append_right A (List.mem_cons_self lj B))
      have htg : ∀ b ∈ t, lineTerm b = false := by
        intro b hb
        exact (hlj b (by rw [← hw]; exact List.mem_append_right w hb)).2
      have hBt : ∀ l ∈ B, ∀ b ∈ l, lineTerm b = false := by
        intro l hl
        exact hLt l (by rw [hLA]; exact List.mem_append_right A (List.mem_cons_of_mem lj hl))
      have hcnt_s : countNl ((joinLines L ++ r).drop sz) = B.length + 1 := by
        rw [hs, countNl_append, countNl_eq_zero t (noTerm_no_nl t htg)]
        have h10 : countNl (10 :: (joinLines B ++ r)) =
            1 + countNl (joinLines B ++ r) := by simp [countNl]
        rw [h10, countNl_append, countNl_joinLines B hBt,
            countNl_eq_zero r (noTerm_no_nl r hrt)]
        omega
      have hnle : n ≤ B.length := by omega
      have hsplit : pySplitlines ((joinLines L ++ r).drop sz) =
          t :: (B ++ if r = [] then [] else [r]) := by
        rw [hs]
        unfold pySplitlines
        rw [slGo_append_noTerm t htg _ [], slGo_newline, slGo_flatten B hBt r,
            slGo_noTerm r hrt]
        simp
      rw [hsplit]
      unfold pyTakeLast
      rw [if_neg (by omega : ¬ n = 0), hLA]
      have e1 : (t :: (B ++ if r = [] then [] else [r])).length - n =
          (B.length + (if r = [] then ([] : List (List Nat)) else [r]).length - n) + 1 := by
        simp only [List.length_cons, List.length_append]
        omega
      have e2 : ((A ++ lj :: B) ++ if r = [] then [] else [r]).length - n =
          A.length +
            ((B.length + (if r = [] then ([] : List (List Nat)) else [r]).length - n) + 1) := by
        simp only [List.length_append, List.length_cons]
        omega
      rw [e1, e2, List.drop_succ_cons]
      have e3 : ((A ++ lj :: B) ++ if r = [] then [] else [r]) =
          A ++ (lj :: (B ++ if r = [] then [] else [r])) := by simp
      rw [e3, List.drop_append, List.drop_succ_cons]

/-- Claim C1 (amended): for every log whose content is a sequence of plain
lines each ending in a newline, followed by an optional unterminated plain
final line, and every requested count `n ≥ 1`, `tail_file` returns all `K`
logical lines in original order when `n ≥ K`, and exactly the last `n`
lines (oldest first, newest last) when `n < K`.  Both cases are the single
equation `result = lines.drop (lines.length - n)`.  The amendment restricts
the claim to `n ≥ 1`: for `n = 0` the Python slice `text[-0:]` returns every
line read instead of the last zero lines (see the counterexample). -/
theorem tail_file_last_lines (L : List (List Nat)) (r : List Nat) (n : Nat)
    (hL : ∀ l ∈ L, GoodLine l) (hr : GoodLine r) (hn : 1 ≤ n) :
    tail_file n (some (joinLines L ++ r)) =
      (L ++ if r = [] then [] else [r]).drop
        ((L ++ if r = [] then [] else [r]).length - n) := by
  rw [tail_file_some]
  exact tail_drop_correct L r n hL hr hn _
    (tailAcquire_exit n (joinLines L ++ r) _ _ le_rfl)

/-- Claim C1 counterexample: the file `"a\n"` has exactly `K = 1` logical
line; requesting `n = 0 < K` should, by the claim, return the last `0`
lines, i.e. `[]` — but `tail_file` returns the whole line `a`, because the
Python slice `text[-0:]` is the whole list. -/
theorem tail_file_zero_count_cex :
    tail_file 0 (some [97, 10]) = [[97]] ∧ ([[97]] : List (List Nat)) ≠ [] := by
  exact ⟨rfl, by decide⟩

/-- Witness for `tail_file_last_lines`: a 3-line log plus an unterminated
final line, tailed with `n = 2`, yields the last two logical lines. -/
theorem tail_file_last_lines_witness :
    tail_file 2 (some (joinLines [[97], [98], [99]] ++ [100])) =
      ([[97], [98], [99]] ++ if ([100] : List Nat) = [] then [] else [[100]]).drop
        (([[97], [98], [99]] ++ if ([100] : List Nat) = [] then [] else [[100]]).length - 2) :=
  tail_file_last_lines [[97], [98], [99]] [100] 2 (by decide) (by decide) (by decide)

theorem decode_cons_255 (b : List Nat) :
    decodeUtf8Ignore (255 :: b) = decodeUtf8Ignore b := by
  unfold decodeUtf8Ignore
  simp only [List.length_cons, decodeIgnoreF]
  have hstep : utf8StepIgnore 255 b = ([], b) := by
    simp [utf8StepIgnore]
  rw [hstep]
  simp

/-- Claim C9 counterexample: the byte 255 can never begin a valid UTF-8
sequence.  The claim says the tailer replaces it with a substitution
marker; the code decodes with `errors="ignore"`, which silently drops it:
tailing the file `b"\xffa\n"` yields the line `a` with no marker, where the
claimed replacing decoder yields `� a`. -/
theorem tail_decode_drops_cex :
    tail_file 1 (some [255, 97, 10]) = [[97]] ∧
    decodeUtf8Ignore [255, 97] = [97] ∧
    decodeUtf8ReplaceSpec [255, 97] = [65533, 97] ∧
    ([97] : List Nat) ≠ [65533, 97] :=
  ⟨rfl, rfl, rfl, by decide⟩

/-- Claim C9 (amended): the tailer's decoding is lenient — it is a total
function that silently drops (rather than replaces) an invalid byte, and
never fails: deleting an invalid byte 255 from the input does not change
the decoded output. -/
theorem decode_drops_invalid (a b : List Nat) (ha : ∀ x ∈ a, x < 128) :
    decodeUtf8Ignore (a ++ 255 :: b) = decodeUtf8Ignore (a ++ b) := by
  rw [decode_ascii_append a ha, decode_ascii_append a ha, decode_cons_255]

/-- Witness for `decode_drops_invalid`. -/
theorem decode_drops_invalid_witness :
    decodeUtf8Ignore ([97] ++ 255 :: [98]) = decodeUtf8Ignore ([97] ++ [98]) :=
  decode_drops_invalid [97] [98] (by decide)

/-- The bytes of the SSE prefix `"data: "`. -/
def dataColon : List Nat := [100, 97, 116, 97, 58, 32]

/-- One flush of `sse_tail` (`manager.py` lines 423-431): the payload is one
`data:` line per pending log line, followed by a single blank separator
line. -/
def sseFlushPayload (pending : List (List Nat)) : List Nat :=
  (pending.map (fun line => dataColon ++ line ++ [10])).flatten ++ [10]

/-- The processing `sse_tail` applies to a newly read chunk (line 421):
decode leniently and split into logical lines. -/
def sseChunkLines (chunk : List Nat) : List (List Nat) :=
  pySplitlines (decodeUtf8Ignore chunk)

/-- Streamer state: the stored read offset (`last_size`) and the pending
line buffer of `sse_tail`. -/
structure SseState where
  lastSize : Nat
  pending : List (List Nat)
  deriving DecidableEq

/-- The streamer state right after `sse_tail` emits the `data: __CLEAR__`
reset event (`manager.py` lines 402-404): offset 0, nothing pending. -/
def sseInit : SseState := ⟨0, []⟩

/-- One file observation of `sse_tail`'s loop body (`manager.py` lines
411-421): when the file exists, compare its size with the stored offset;
if the file shrank, reset the offset to 0; then, if there are bytes past
the offset, read exactly that byte range, decode leniently, split into
lines and append them to the pending buffer, advancing the offset to the
new size. -/
def sseObserve (st : SseState) (file : Option (List Nat)) : SseState :=
  match file with
  | none => st
  | some content =>
    let size := content.length
    let ls := if size < st.lastSize then 0 else st.lastSize
    if ls < size then
      { lastSize := size,
        pending := st.pending ++ sseChunkLines ((content.drop ls).take (size - ls)) }
    else
      { st with lastSize := ls }

/-- Claim C2: appending whole plain lines to the log makes the next flush
emit exactly one `data:` line event per appended logical line, followed by
a single blank separator line — the payload is literally the concatenation
of the per-line frames plus one newline, never one event holding an escaped
newline.  In particular appending `"a\nb\n"` gives `data: a`, `data: b`,
blank (see the witness). -/
theorem sse_one_event_per_line (L : List (List Nat)) (hL : ∀ l ∈ L, GoodLine l) :
    sseFlushPayload (sseChunkLines (joinLines L)) =
      (L.map (fun line => dataColon ++ line ++ [10])).flatten ++ [10] := by
  unfold sseChunkLines
  rw [decode_ascii _ (joinLines_ascii L hL)]
  have hsp : pySplitlines (joinLines L) = L := by
    have h := pySplitlines_flatten L [] (fun l hl b hb => (hL l hl b hb).2)
      (by intro b hb; simp at hb)
    simpa using h
  rw [hsp]
  rfl

/-- Witness for `sse_one_event_per_line`: appending `"a\nb\n"` flushes as
`data: a`, `data: b`, then one blank line. -/
theorem sse_one_event_per_line_witness :
    sseFlushPayload (sseChunkLines (joinLines [[97], [98]])) =
      ([[97], [98]].map (fun line => dataColon ++ line ++ [10])).flatten ++ [10] :=
  sse_one_event_per_line [[97], [98]] (by decide)

/-- Claim C7: whenever the observed file is smaller than the stored offset
(rotation/truncation), the streamer resets the offset to zero without
erroring, and that same observation reads only what the new shorter file
contains, from offset 0. -/
theorem sse_shrink_resets (st : SseState) (content : List Nat)
    (h : content.length < st.lastSize) :
    sseObserve st (some content) =
      ⟨content.length, st.pending ++ sseChunkLines content⟩ := by
  simp only [sseObserve, if_pos h]
  by_cases h0 : 0 < content.length
  · rw [if_pos h0]
    simp
  · have hemp : content = [] := List.length_eq_zero.mp (by omega)
    subst hemp
    simp [sseChunkLines, decode_nil, pySplitlines, slGo]

/-- Witness for `sse_shrink_resets`: offset 5, file truncated to `"a\n"`. -/
theorem sse_shrink_resets_witness :
    sseObserve ⟨5, [[120]]⟩ (some [97, 10]) =
      ⟨2, [[120]] ++ sseChunkLines [97, 10]⟩ :=
  sse_shrink_resets ⟨5, [[120]]⟩ [97, 10] (by decide)

/-- Claim C10: a stream opened on a non-empty log (state `sseInit`, right
after the `__CLEAR__` reset event) replays the entire existing file content
from offset zero as its first emitted lines. -/
theorem sse_initial_replays_all (content : List Nat) (h : 0 < content.length) :
    sseObserve sseInit (some content) = ⟨content.length, sseChunkLines content⟩ := by
  simp only [sseObserve, sseInit]
  rw [if_neg (by omega : ¬ content.length < 0), if_pos h]
  simp

/-- Witness for `sse_initial_replays_all`: a fresh stream over `"a\nb\n"`
gets both existing lines. -/
theorem sse_initial_replays_all_witness :
    sseObserve sseInit (some [97, 10, 98, 10]) =
      ⟨4, sseChunkLines [97, 10, 98, 10]⟩ :=
  sse_initial_replays_all [97, 10, 98, 10] (by decide)

/-- A site as seen by the watchdog: its name and the two policy flags. -/
structure WSite where
  name : Nat
  autostart : Bool
  autorestart : Bool
  deriving DecidableEq

/-- The environment one watchdog pass runs in, as oracles: whether tmux is
available, which names have a live tmux session, which names have a live
background process, and whether the two start calls return normally
(`true`) or raise an exception (`false`) for a given name. -/
structure WEnv where
  tmuxAvail : Bool
  hasSession : Nat → Bool
  bgRunning : Nat → Bool
  tmuxStartOk : Nat → Bool
  bgStartOk : Nat → Bool

/-- `is_running` of one `watchdog_loop` iteration (`manager.py` line 460). -/
def siteRunning (e : WEnv) (s : WSite) : Bool :=
  (e.tmuxAvail && e.hasSession s.name) || e.bgRunning s.name

/-- Whether the watchdog will attempt to start the site (line 461). -/
def siteEligible (e : WEnv) (s : WSite) : Bool :=
  (s.autostart || s.autorestart) && !(siteRunning e s)

/-- The start attempt of one pass iteration (lines 462-466): with tmux
available, try `tmux_start` and fall back to `background_start` when it
raises; without tmux, call `background_start` directly.  `true` means the
call chain returned normally, `false` that an exception escaped. -/
def attemptStart (e : WEnv) (s : WSite) : Bool :=
  if e.tmuxAvail then
    if e.tmuxStartOk s.name then true else e.bgStartOk s.name
  else e.bgStartOk s.name

/-- One watchdog pass over the site list (lines 454-468), returning the
names started in this pass, in order.  An exception escaping a start
attempt propagates out of the `for` loop to the pass-level
`except Exception: pass` handler (lines 467-468), ending the pass: sites
later in the list are not evaluated during it. -/
def watchdogGo (e : WEnv) : List WSite → List Nat → List Nat
  | [], started => started
  | s :: rest, started =>
    if siteEligible e s then
      if attemptStart e s then watchdogGo e rest (started ++ [s.name])
      else started
    else watchdogGo e rest started

/-- One full watchdog pass starting from an empty started-list. -/
def watchdogPass (e : WEnv) (sites : List WSite) : List Nat :=
  watchdogGo e sites []

/-- Claim C3 counterexample: without tmux, two autostart sites, neither
running; `background_start` raises for site 1 (for example because its
`cwd` exists as a regular file, making `mkdir` raise) and would succeed
for site 2.  The pass starts nothing at all — site 2 is eligible but never
evaluated, because the exception is caught outside the `for` loop. -/
theorem watchdog_abort_cex :
    watchdogPass
      ⟨false, fun _ => false, fun _ => false, fun _ => false, fun n => n != 1⟩
      [⟨1, true, false⟩, ⟨2, true, false⟩] = [] ∧
    siteEligible
      ⟨false, fun _ => false, fun _ => false, fun _ => false, fun n => n != 1⟩
      ⟨2, true, false⟩ = true :=
  ⟨rfl, rfl⟩

/-- Claim C3 (amended): when a start attempt for an eligible site raises,
the watchdog pass stops there: sites earlier in the list are processed
normally (and any starts they made persist), while every site after the
failing one is not evaluated in that pass.  The pass-level handler merely
keeps the loop itself alive for the next cycle. -/
theorem watchdog_failure_aborts_pass (e : WEnv) (pre : List WSite) (s : WSite)
    (post : List WSite) (acc : List Nat)
    (hpre : ∀ x ∈ pre, siteEligible e x = true → attemptStart e x = true)
    (hs : siteEligible e s = true) (hf : attemptStart e s = false) :
    watchdogGo e (pre ++ s :: post) acc = watchdogGo e pre acc := by
  induction pre generalizing acc with
  | nil =>
    simp only [List.nil_append, watchdogGo, hs, hf]
    simp [watchdogGo]
  | cons x pre2 ih =>
    have hx := hpre x (List.mem_cons_self x pre2)
    by_cases hel : siteEligible e x = true
    · have hat : attemptStart e x = true := hx hel
      simp only [List.cons_append, watchdogGo, hel, hat, if_true]
      exact ih (acc ++ [x.name]) (fun y hy => hpre y (List.mem_cons_of_mem x hy))
    · have hel2 : siteEligible e x = false := by
        revert hel; cases siteEligible e x <;> simp
      simp only [List.cons_append, watchdogGo, hel2, Bool.false_eq_true, if_false]
      exact ih acc (fun y hy => hpre y (List.mem_cons_of_mem x hy))

/-- Witness for `watchdog_failure_aborts_pass`: site 0 starts fine, site 1
raises, site 2 is cut off — the pass equals the pass over `[site 0]`. -/
theorem watchdog_failure_aborts_pass_witness :
    watchdogGo
      ⟨false, fun _ => false, fun _ => false, fun _ => false, fun n => n != 1⟩
      ([⟨0, true, false⟩] ++ ⟨1, true, false⟩ :: [⟨2, true, false⟩]) [] =
    watchdogGo
      ⟨false, fun _ => false, fun _ => false, fun _ => false, fun n => n != 1⟩
      [⟨0, true, false⟩] [] :=
  watchdog_failure_aborts_pass _ [⟨0, true, false⟩] ⟨1, true, false⟩
    [⟨2, true, false⟩] [] (by decide) rfl rfl

/-- Outcome of `os.killpg(os.getpgid(pid), signal.SIGTERM)`. -/
inductive KillOutcome where
  | delivered
  | noSuchProcess
  | otherFailure
  deriving DecidableEq

/-- The distinct outcome messages of `background_stop`. -/
inductive StopMsg where
  | noPid
  | invalidRemoved
  | stopped (pid : Nat)
  | notFound
  | failed
  deriving DecidableEq

/-- `background_stop` (`manager.py` lines 174-191).  The pid file is
`none` when absent, `some none` when present but unparseable, and
`some (some pid)` when it parses to `pid`.  `k` is the outcome of the
process-group signal.  Returns the pid-file state after the call together
with the outcome message. -/
def background_stop (pfile : Option (Option Nat)) (k : KillOutcome) :
    Option (Option Nat) × StopMsg :=
  match pfile with
  | none => (none, .noPid)
  | some none => (none, .invalidRemoved)
  | some (some pid) =>
    match k with
    | .delivered => (none, .stopped pid)
    | .noSuchProcess => (none, .notFound)
    | .otherFailure => (some (some pid), .failed)

/-- Claim C4 counterexample: on a failure other than "process not found"
(for example `PermissionError`), `background_stop` reports failure but does
NOT delete the run record — the pid file survives, where the claim says it
is deleted in all three outcome cases. -/
theorem background_stop_keeps_record_cex :
    background_stop (some (some 5)) KillOutcome.otherFailure =
      (some (some 5), StopMsg.failed) ∧
    (some (some 5) : Option (Option Nat)) ≠ none :=
  ⟨rfl, by decide⟩

/-- Claim C4 (amended): for a parseable run record, `background_stop`
deletes the run record on successful signal delivery and on "process not
found", each with its distinct message; on any other failure it reports
failure and leaves the run record in place. -/
theorem background_stop_outcomes (pid : Nat) :
    background_stop (some (some pid)) KillOutcome.delivered =
      (none, StopMsg.stopped pid) ∧
    background_stop (some (some pid)) KillOutcome.noSuchProcess =
      (none, StopMsg.notFound) ∧
    background_stop (some (some pid)) KillOutcome.otherFailure =
      (some (some pid), StopMsg.failed) :=
  ⟨rfl, rfl, rfl⟩

/-- `background_running` (`manager.py` lines 147-159): run record present,
parseable, and the zero-signal probe reports the process alive. -/
def background_running (pfile : Option (Option Nat)) (alive : Nat → Bool) : Bool :=
  match pfile with
  | none => false
  | some none => false
  | some (some pid) => alive pid

/-- Outcome messages of a start request. -/
inductive StartMsg where
  | alreadyRunningBg
  | startedBg (pid : Nat)
  | alreadyRunningTmux
  | startedTmux
  deriving DecidableEq

/-- Observable outcome of a start request: whether a new background
process was spawned, whether a new tmux session was created, the run
record afterwards, and the reported message. -/
structure StartResult where
  spawnedProcess : Bool
  createdSession : Bool
  pidFileAfter : Option (Option Nat)
  msg : StartMsg
  deriving DecidableEq

/-- `background_start` (`manager.py` lines 161-172): if running per the
run record, report "already running" without spawning; otherwise spawn a
new process-group leader (fresh pid `newPid`) and write the run record.
(The `mkdir` of the working directory is elided: when it succeeds it
affects neither the run record nor the spawn decision.) -/
def background_start (pfile : Option (Option Nat)) (alive : Nat → Bool)
    (newPid : Nat) : StartResult :=
  if background_running pfile alive then
    ⟨false, false, pfile, .alreadyRunningBg⟩
  else
    ⟨true, false, some (some newPid), .startedBg newPid⟩

/-- The `op == "start"` branch of `action` (`manager.py` lines 382-387):
with tmux available, an existing session short-circuits to "already
running in tmux" and otherwise a new tmux session is created; without
tmux, defer to `background_start`. -/
def action_start (tmuxAvail hasSession : Bool) (pfile : Option (Option Nat))
    (alive : Nat → Bool) (newPid : Nat) : StartResult :=
  if tmuxAvail then
    if hasSession then ⟨false, false, pfile, .alreadyRunningTmux⟩
    else ⟨false, true, pfile, .startedTmux⟩
  else background_start pfile alive newPid

/-- Claim C6 counterexample: a site running via the background backend
(live pid 5 in the run record) while tmux is available but has no session
for it.  The site is "already running (in either backend)", yet a second
start call creates a brand-new tmux session — a duplicate runtime — and
does not report "already running". -/
theorem action_start_cross_backend_cex :
    background_running (some (some 5)) (fun _ => true) = true ∧
    action_start true false (some (some 5)) (fun _ => true) 7 =
      ⟨false, true, some (some 5), StartMsg.startedTmux⟩ :=
  ⟨rfl, rfl⟩

/-- Claim C6 (amended): starting a site that is already running in the
currently selected backend (a tmux session exists when tmux is available;
a live background process when it is not) is idempotent: it reports
"already running", spawns no process and no session, and leaves the run
record unchanged. -/
theorem action_start_idempotent (tmuxAvail hasSession : Bool)
    (pfile : Option (Option Nat)) (alive : Nat → Bool) (newPid : Nat)
    (h : (if tmuxAvail then hasSession else background_running pfile alive) = true) :
    action_start tmuxAvail hasSession pfile alive newPid =
      ⟨false, false, pfile,
        if tmuxAvail then StartMsg.alreadyRunningTmux else StartMsg.alreadyRunningBg⟩ := by
  cases tmuxAvail with
  | false =>
    simp only [Bool.false_eq_true, if_false] at h ⊢
    simp [action_start, background_start, h]
  | true =>
    simp only [if_true] at h ⊢
    simp [action_start, h]

/-- Witness for `action_start_idempotent`: no tmux, run record with live
pid 5 — the second start changes nothing and reports already running. -/
theorem action_start_idempotent_witness :
    action_start false false (some (some 5)) (fun _ => true) 7 =
      ⟨false, false, some (some 5),
        if false then StartMsg.alreadyRunningTmux else StartMsg.alreadyRunningBg⟩ :=
  action_start_idempotent false false (some (some 5)) (fun _ => true) 7 rfl

/-- A persisted site record; only the fields `add_site` validates are
modelled (the rest ride along unchanged). -/
structure SiteRec where
  name : List Nat
  cwd : List Nat
  cmd : List Nat
  deriving DecidableEq

/-- The characters rejected in a site name by `add_site`
(`manager.py` line 342): slash, backslash, space, tab, newline, carriage
return. -/
def badNameChars : List Nat := [47, 92, 32, 9, 10, 13]

/-- `add_site` (`manager.py` lines 340-361), reduced to its effect on the
persisted site list: reject empty or bad-charactered names (400),
duplicates (409), a missing working directory (400, via the `cwdExists`
oracle) and an empty command (400); otherwise append the new record at the
end and persist.  The error value is the HTTP status raised. -/
def add_site (cwdExists : Bool) (sites : List SiteRec) (s : SiteRec) :
    Except Nat (List SiteRec) :=
  if s.name == [] || s.name.any (fun c => badNameChars.contains c) then .error 400
  else if sites.any (fun r => r.name == s.name) then .error 409
  else if !cwdExists then .error 400
  else if s.cmd == [] then .error 400
  else .ok (sites ++ [s])

/-- `delete_site` (`manager.py` lines 363-374), reduced to its effect on
the persisted site list: unknown names get 404 before anything changes;
otherwise (after stopping the site's process) every record with that name
is filtered out and the result persisted. -/
def delete_site (sites : List SiteRec) (name : List Nat) :
    Except Nat (List SiteRec) :=
  if sites.any (fun r => r.name == name) then
    .ok (sites.filter (fun r => !(r.name == name)))
  else .error 404

/-- Add-then-delete round trip on the persisted site list; a failing call
leaves the list unchanged. -/
def addThenDelete (cwdExists : Bool) (sites : List SiteRec) (s : SiteRec) :
    List SiteRec :=
  let after1 :=
    match add_site cwdExists sites s with
    | .ok l => l
    | .error _ => sites
  match delete_site after1 s.name with
  | .ok l => l
  | .error _ => after1

theorem add_site_ok_shape (cwdExists : Bool) (sites : List SiteRec) (s : SiteRec)
    (l : List SiteRec) (h : add_site cwdExists sites s = .ok l) :
    l = sites ++ [s] := by
  unfold add_site at h
  split_ifs at h <;> simp_all

theorem delete_no_match (sites : List SiteRec) (nm : List Nat)
    (h : ∀ r ∈ sites, r.name ≠ nm) :
    delete_site sites nm = .error 404 := by
  unfold delete_site
  have hany : (sites.any fun r => r.name == nm) = false := by
    rw [List.any_eq_false]
    intro r hr
    simp only [beq_iff_eq]
    exact h r hr
  rw [hany]
  simp

theorem delete_appended (sites : List SiteRec) (s : SiteRec)
    (hfresh : ∀ r ∈ sites, r.name ≠ s.name) :
    delete_site (sites ++ [s]) s.name = .ok sites := by
  unfold delete_site
  have hany : ((sites ++ [s]).any fun r => r.name == s.name) = true := by
    rw [List.any_append]
    simp
  rw [if_pos hany]
  congr 1
  rw [List.filter_append]
  have h1 : sites.filter (fun r => !(r.name == s.name)) = sites := by
    rw [List.filter_eq_self]
    intro r hr
    simp [beq_eq_false_iff_ne.mpr (hfresh r hr)]
  have h2 : [s].filter (fun r => !(r.name == s.name)) = [] := by
    simp [List.filter]
  rw [h1, h2, List.append_nil]

/-- Claim C8: for every valid site name (non-empty, no slash, backslash,
space, tab or newline) not already present in the store, add followed by
delete of that name restores the persisted site list to its prior state.
(When some other precondition of add fails — missing `cwd`, empty command —
neither call changes the list, so the round trip holds as well.) -/
theorem add_delete_restores (cwdExists : Bool) (sites : List SiteRec) (s : SiteRec)
    (hvalid : s.name ≠ [] ∧ ∀ c ∈ s.name, c ∉ [47, 92, 32, 9, 10])
    (hfresh : ∀ r ∈ sites, r.name ≠ s.name) :
    addThenDelete cwdExists sites s = sites := by
  unfold addThenDelete
  cases hadd : add_site cwdExists sites s with
  | error e =>
    simp only []
    rw [delete_no_match sites s.name hfresh]
  | ok l =>
    have hl := add_site_ok_shape cwdExists sites s l hadd
    subst hl
    simp only []
    rw [delete_appended sites s hfresh]

/-- Witness for `add_delete_restores`: adding then deleting site `b` over
a store holding site `a` returns the store to `[a]`. -/
theorem add_delete_restores_witness :
    addThenDelete true [⟨[97], [99], [100]⟩] ⟨[98], [99], [100]⟩ =
      [⟨[97], [99], [100]⟩] :=
  add_delete_restores true [⟨[97], [99], [100]⟩] ⟨[98], [99], [100]⟩
    (by decide) (by decide)

/-- File-system state relevant to the config store: the live config file,
the temp file and the backup file (contents, or `none` when the path does
not exist). -/
structure FsState where
  live : Option (List Nat)
  tmp : Option (List Nat)
  bak : Option (List Nat)
  deriving DecidableEq

/-- `load_config` (`manager.py` lines 34-39) against a file-system state:
when the live config file is missing it is recreated holding the default
config and that default is returned; otherwise the live content is
returned unchanged. -/
def load_config (defaultCfg : List Nat) (fs : FsState) : FsState × List Nat :=
  match fs.live with
  | none => ({ fs with live := some defaultCfg }, defaultCfg)
  | some c => (fs, c)

/-- The states reachable by interrupting `atomic_write_config`
(`manager.py` lines 41-50) at any point while replacing `old` by `new`,
starting from a live config holding `old` (renames are atomic; the temp
write is not):
* `before`: nothing has happened yet (temp/backup arbitrary leftovers);
* `duringTmp`: the temp file holds some prefix of the new bytes — the
  write/fsync did not finish;
* `afterTmp`: the temp write and fsync completed;
* `afterBakRotate`: `CONFIG_PATH.replace(… ".json.bak")` renamed the live
  file away to the backup — the live path does not exist at all;
* `afterRename`: `tmp.replace(CONFIG_PATH)` completed the sequence. -/
inductive WriteCrash (old new : List Nat) : FsState → Prop
  | before (t b : Option (List Nat)) : WriteCrash old new ⟨some old, t, b⟩
  | duringTmp (p : List Nat) (b : Option (List Nat)) (hp : ∃ q, p ++ q = new) :
      WriteCrash old new ⟨some old, some p, b⟩
  | afterTmp (b : Option (List Nat)) : WriteCrash old new ⟨some old, some new, b⟩
  | afterBakRotate : WriteCrash old new ⟨none, some new, some old⟩
  | afterRename : WriteCrash old new ⟨some new, none, some old⟩

/-- In every crash state the live path is never a partially-written file:
it is absent, the complete old config, or the complete new config.  (The
"empty or truncated" half of claim C5 does hold.) -/
theorem writeCrash_live_intact (old new : List Nat) (fs : FsState)
    (h : WriteCrash old new fs) :
    fs.live = none ∨ fs.live = some old ∨ fs.live = some new := by
  cases h <;> simp

/-- Claim C5 (code bug exhibited): the crash state between the
backup-rotation rename and the final rename is reachable, and in it the
live config path does not exist; the next `load_config` silently recreates
and returns the default config — which is neither the old nor the new
version, contradicting the crash-atomicity the claim (and the function's
own name) promises. -/
theorem config_crash_window_cex :
    WriteCrash [1] [2] ⟨none, some [2], some [1]⟩ ∧
    (load_config [0] ⟨none, some [2], some [1]⟩).2 = [0] ∧
    (load_config [0] ⟨none, some [2], some [1]⟩).1.live = some [0] ∧
    ([0] : List Nat) ≠ [1] ∧ ([0] : List Nat) ≠ [2] :=
  ⟨WriteCrash.afterBakRotate, rfl, rfl, by decide, by decide⟩
